import Mathlib

/-!
Verification of `pkg/commands/service/export.go` (kn `service export`).

The Go code is shallowly embedded below.  Go `map[string]string` values are
represented as association lists (`List (String × String)`); `delete` is
modelled as filtering the key out, and lookup returns the Go zero value `""`
when the key is absent.  Go functions that mutate their pointer arguments are
modelled by explicit state passing: they return, next to the Go return value,
the post-call state of each mutated argument.  Fields of the Kubernetes
structs that the exporter never reads or writes (resourceVersion, uid,
creationTimestamp, owner references, …) are elided; the uninterpreted revision
pod spec is carried as an abstract payload that is copied but never inspected.
-/

namespace KnExport

/-- Association-list model of a Go `map[string]string`.  Lookup of a missing
key yields the zero value `""`, as in Go. -/
def mapLookupStr (m : List (String × String)) (k : String) : String :=
  (((m.find? (fun p => p.1 == k)).map Prod.snd)).getD ""

/-- Go `delete(m, k)`: remove the binding of `k` if present. -/
def mapDelete (m : List (String × String)) (k : String) : List (String × String) :=
  m.filter (fun p => p.1 != k)

/-- Association-list model of a Go `map[string]bool`; insertion prepends, so
`find?` (which scans from the head) sees the most recent binding, matching
Go's overwrite semantics.  Lookup of a missing key yields `false`. -/
def mapInsertBool (m : List (String × Bool)) (k : String) (v : Bool) :
    List (String × Bool) :=
  (k, v) :: m

/-- Go `m[k]` on a `map[string]bool`: zero value `false` when absent. -/
def mapLookupBool (m : List (String × Bool)) (k : String) : Bool :=
  (((m.find? (fun p => p.1 == k)).map Prod.snd)).getD false

/-- `ObjectMeta`: the metadata fields the exporter touches. -/
structure ObjectMeta where
  name : String
  labels : List (String × String)
  annotations : List (String × String)
  deriving DecidableEq, Repr

/-- `TypeMeta`. -/
structure TypeMeta where
  apiVersion : String
  kind : String
  deriving DecidableEq, Repr

/-- A traffic target of the service's route spec.  `latestRevision` is the
latest-indirection flag (`*bool` in Go, hence `Option Bool`). -/
structure TrafficTarget where
  revisionName : String
  latestRevision : Option Bool
  percent : Option Int
  tag : String
  deriving DecidableEq, Repr

/-- Uninterpreted revision/pod spec contents: copied around by the exporter,
never inspected. -/
structure RevisionSpec where
  payload : Nat
  deriving DecidableEq, Repr

/-- `RevisionTemplateSpec`. -/
structure RevisionTemplateSpec where
  metadata : ObjectMeta
  spec : RevisionSpec
  deriving DecidableEq, Repr

/-- `ServiceSpec`: the template plus the route spec's traffic list. -/
structure ServiceSpec where
  template : RevisionTemplateSpec
  traffic : List TrafficTarget
  deriving DecidableEq, Repr

/-- The only status field the exporter reads. -/
structure ServiceStatus where
  latestReadyRevisionName : String
  deriving DecidableEq, Repr

/-- `Service`. -/
structure Service where
  typeMeta : TypeMeta
  metadata : ObjectMeta
  spec : ServiceSpec
  status : ServiceStatus
  deriving DecidableEq, Repr

/-- `Revision`. -/
structure Revision where
  typeMeta : TypeMeta
  metadata : ObjectMeta
  spec : RevisionSpec
  deriving DecidableEq, Repr

/-- `RevisionList`. -/
structure RevisionList where
  items : List Revision
  deriving DecidableEq, Repr

/-- `ServiceList`. -/
structure ServiceList where
  typeMeta : TypeMeta
  items : List Service
  deriving DecidableEq, Repr

/-- `clientv1alpha1.ExportSpec`. -/
structure ExportSpec where
  service : Service
  revisions : List Revision
  deriving DecidableEq, Repr

/-- `clientv1alpha1.Export`. -/
structure Export where
  typeMeta : TypeMeta
  spec : ExportSpec
  deriving DecidableEq, Repr

/-- `clientserving.UpdateTimestampAnnotationKey` (external constant from
`knative.dev/client/pkg/serving`). -/
def UpdateTimestampAnnotationKey : String := "client.knative.dev/updateTimestamp"

/-- `serving.ConfigurationGenerationLabelKey` (external constant from
`knative.dev/serving/pkg/apis/serving`). -/
def ConfigurationGenerationLabelKey : String :=
  "serving.knative.dev/configurationGeneration"

def IgnoredServiceAnnotations : List String :=
  ["serving.knative.dev/creator",
   "serving.knative.dev/lastModifier",
   "kubectl.kubernetes.io/last-applied-configuration"]

def IgnoredRevisionAnnotations : List String :=
  ["serving.knative.dev/lastPinned",
   "serving.knative.dev/creator",
   "serving.knative.dev/routingStateModified",
   UpdateTimestampAnnotationKey]

def IgnoredServiceLabels : List String :=
  ["serving.knative.dev/configurationUID",
   "serving.knative.dev/serviceUID"]

def IgnoredRevisionLabels : List String :=
  ["serving.knative.dev/configurationUID",
   "serving.knative.dev/serviceUID"]

/-- Delete every key of `ks` from the map `m` (the body of each Go
`stripIgnored…` loop). -/
def stripKeys (m : List (String × String)) (ks : List String) :
    List (String × String) :=
  ks.foldl (fun acc k => mapDelete acc k) m

def stripIgnoredAnnotationsFromService (svc : Service) : Service :=
  { svc with
      metadata.annotations :=
        stripKeys svc.metadata.annotations IgnoredServiceAnnotations }

def stripIgnoredAnnotationsFromRevision (revision : Revision) : Revision :=
  { revision with
      metadata.annotations :=
        stripKeys revision.metadata.annotations IgnoredRevisionAnnotations }

def stripIgnoredAnnotationsFromRevisionTemplate (template : RevisionTemplateSpec) :
    RevisionTemplateSpec :=
  { template with
      metadata.annotations :=
        stripKeys template.metadata.annotations IgnoredRevisionAnnotations }

def stripIgnoredLabelsFromService (svc : Service) : Service :=
  { svc with
      metadata.labels :=
        stripKeys svc.metadata.labels IgnoredServiceLabels }

def stripIgnoredLabelsFromRevision (rev : Revision) : Revision :=
  { rev with
      metadata.labels :=
        stripKeys rev.metadata.labels IgnoredRevisionLabels }

def stripIgnoredLabelsFromRevisionTemplate (template : RevisionTemplateSpec) :
    RevisionTemplateSpec :=
  { template with
      metadata.labels :=
        stripKeys template.metadata.labels IgnoredRevisionLabels }

/-- Go `strconv.Atoi` (= `ParseInt(s, 10, 64)` on a 64-bit platform):
optional sign, one or more ASCII digits, nothing else, result within the
64-bit signed range; any failure yields `none`. -/
def goAtoi (s : String) : Option Int :=
  match s.data with
  | [] => none
  | c :: cs =>
    let neg : Bool := c = '-'
    let digits : List Char := if c = '-' ∨ c = '+' then cs else c :: cs
    if digits = [] then none
    else if digits.all (fun d => d.isDigit) then
      let n : Nat := digits.foldl (fun acc d => acc * 10 + (d.toNat - 48)) 0
      if neg then
        if n ≤ 2 ^ 63 then some (-(n : Int)) else none
      else
        if n ≤ 2 ^ 63 - 1 then some (n : Int) else none
    else none

/-- The generation label of a revision, parsed as in the comparator:
`strconv.Atoi(rev.Labels[serving.ConfigurationGenerationLabelKey])`. -/
def parseGen (r : Revision) : Option Int :=
  goAtoi (mapLookupStr r.metadata.labels ConfigurationGenerationLabelKey)

/-- Lexicographic strict comparison of char lists by code point.  Go compares
strings byte-wise; on UTF-8 encodings byte-wise order coincides with code
point order, so this is Go's string `<`. -/
def goCharsLt : List Char → List Char → Bool
  | _, [] => false
  | [], _ :: _ => true
  | a :: as, b :: bs =>
    if a.toNat < b.toNat then true
    else if b.toNat < a.toNat then false
    else goCharsLt as bs

/-- Go string `<`. -/
def goStringLt (s t : String) : Bool := goCharsLt s.data t.data

/-- `revisionListSortFunc`, as a binary predicate on the two compared
revisions (the Go closure indexes into the slice; the elements are what it
compares).  `a.Name > b.Name` is `goStringLt b.Name a.Name`. -/
def revisionListSortFunc (a b : Revision) : Bool :=
  match parseGen a with
  | none => goStringLt b.metadata.name a.metadata.name
  | some agen =>
    match parseGen b with
    | none => goStringLt b.metadata.name a.metadata.name
    | some bgen =>
      if agen ≠ bgen then decide (agen < bgen)
      else goStringLt b.metadata.name a.metadata.name

/-- One step of Go's insertion sort, on the reversed prefix: the element `x`
swaps left past `y` exactly while `less x y` holds (`y` is scanned starting
from the element nearest to `x`, i.e. the head of the reversed prefix). -/
def insRev (less : α → α → Bool) (x : α) : List α → List α
  | [] => [x]
  | y :: ys => if less x y then y :: insRev less x ys else x :: y :: ys

/-- Go `sort.SliceStable`: stable insertion sort (this is literally
`sort.SliceStable`'s behaviour for slices of at most 20 elements, and—being a
stable sort—agrees with it whenever `less` is a strict weak order).  The
accumulated sorted prefix is kept reversed so that `insRev` scans it from the
end, exactly as Go's insertion sort does. -/
def sortSliceStable (less : α → α → Bool) (l : List α) : List α :=
  (l.foldl (fun acc y => insRev less y acc) []).reverse

/-- `sortRevisions`. -/
def sortRevisions (revisionList : RevisionList) : RevisionList :=
  { items := sortSliceStable revisionListSortFunc revisionList.items }

/-- `getRoutedRevisions`. -/
def getRoutedRevisions (latestSvc : Service) : List (String × Bool) :=
  latestSvc.spec.traffic.foldl
    (fun revsMap traffic =>
      if traffic.revisionName != "" then
        mapInsertBool revsMap traffic.revisionName true
      else revsMap)
    []

/-- `exportLatestService`.  Returns `(return value, post-call state of the
argument)`: the exported service's label/annotation maps, its template
metadata maps and (when `withRoutes`) its traffic slice's backing array are
the argument's own, so the sanitization steps and the traffic rewrite are
visible through the argument as well. -/
def exportLatestService (latestSvc : Service) (withRoutes : Bool) :
    Service × Service :=
  let exportedSvc0 : Service :=
    { typeMeta := latestSvc.typeMeta
      metadata :=
        { name := latestSvc.metadata.name
          labels := latestSvc.metadata.labels
          annotations := latestSvc.metadata.annotations }
      spec :=
        { template :=
            { spec := latestSvc.spec.template.spec
              metadata := latestSvc.spec.template.metadata }
          traffic := [] }
      status := { latestReadyRevisionName := "" } }
  let exportedSvc1 : Service :=
    if withRoutes then
      { exportedSvc0 with spec.traffic :=
          latestSvc.spec.traffic.map (fun t =>
            if t.latestRevision = some true then
              { t with revisionName := latestSvc.status.latestReadyRevisionName }
            else t) }
    else exportedSvc0
  let exportedSvc2 := stripIgnoredAnnotationsFromService exportedSvc1
  let exportedSvc3 := stripIgnoredLabelsFromService exportedSvc2
  let exportedSvc4 :=
    { exportedSvc3 with spec.template :=
        stripIgnoredAnnotationsFromRevisionTemplate exportedSvc3.spec.template }
  let exportedSvc5 :=
    { exportedSvc4 with spec.template :=
        stripIgnoredLabelsFromRevisionTemplate exportedSvc4.spec.template }
  (exportedSvc5,
   { latestSvc with
       metadata.annotations := exportedSvc5.metadata.annotations
       metadata.labels := exportedSvc5.metadata.labels
       spec.template.metadata.annotations :=
         exportedSvc5.spec.template.metadata.annotations
       spec.template.metadata.labels :=
         exportedSvc5.spec.template.metadata.labels
       spec.traffic :=
         if withRoutes then exportedSvc5.spec.traffic else latestSvc.spec.traffic })

/-- `exportRevision` (the argument is always a `DeepCopy`, so its mutation is
not observable and is not returned). -/
def exportRevision (revision : Revision) : Revision :=
  let exportedRevision : Revision :=
    { typeMeta := revision.typeMeta
      metadata :=
        { name := revision.metadata.name
          labels := revision.metadata.labels
          annotations := revision.metadata.annotations }
      spec := revision.spec }
  stripIgnoredLabelsFromRevision
    (stripIgnoredAnnotationsFromRevision exportedRevision)

/-- `constructServiceFromRevision`.  Returns
`(return value, post-call revision, post-call latestSvc)`: the revision
argument's own annotation map is sanitized in place before being installed as
the produced service's template annotations, and the produced service's
service-level annotation map is `latestSvc`'s own, so the final
service-annotation strip reaches `latestSvc` too. -/
def constructServiceFromRevision (latestSvc : Service) (revision : Revision) :
    Service × Revision × Service :=
  let exportedSvc0 : Service :=
    { typeMeta := latestSvc.typeMeta
      metadata :=
        { name := latestSvc.metadata.name
          labels := latestSvc.metadata.labels
          annotations := latestSvc.metadata.annotations }
      spec :=
        { template :=
            { spec := revision.spec
              metadata := latestSvc.spec.template.metadata }
          traffic := [] }
      status := { latestReadyRevisionName := "" } }
  let revision1 := stripIgnoredAnnotationsFromRevision revision
  let exportedSvc1 :=
    { exportedSvc0 with spec.template.metadata.annotations :=
        revision1.metadata.annotations }
  let exportedSvc2 :=
    { exportedSvc1 with spec.template.metadata.name := revision1.metadata.name }
  let exportedSvc3 := stripIgnoredAnnotationsFromService exportedSvc2
  (exportedSvc3, revision1,
   { latestSvc with metadata.annotations := exportedSvc3.metadata.annotations })

/-- `getRevisionsToExport`.  The network call `client.ListRevisions` is an
external collaborator; its successful result is the `revisionList` argument
(a transport error would abort the export before this logic runs). -/
def getRevisionsToExport (latestSvc : Service) (revisionList : RevisionList) :
    Except String (RevisionList × List (String × Bool)) :=
  let revsMap := getRoutedRevisions latestSvc
  if revisionList.items.length = 0 then
    Except.error ("no revisions found for the service " ++ latestSvc.metadata.name)
  else
    Except.ok (sortRevisions revisionList, revsMap)

/-- The condition of the per-revision loop in both assemblers:
`revsMap[revision.Name] && revision.Name != latestSvc.Spec.Template.Name`. -/
def isExportedHistoricalRevision (latestSvc : Service)
    (revsMap : List (String × Bool)) (revision : Revision) : Bool :=
  mapLookupBool revsMap revision.metadata.name &&
    revision.metadata.name != latestSvc.spec.template.metadata.name

/-- The Go function returns `runtime.Object`, which is either the bare
`*servingv1.Service` (no `--with-revisions`) or a `*servingv1.ServiceList`. -/
inductive ReplayArtifact where
  | single (svc : Service)
  | list (l : ServiceList)
  deriving DecidableEq, Repr

/-- `exportServiceListForReplay`.  The per-revision loop threads the state of
`latestSvc` (which `constructServiceFromRevision` mutates through the shared
annotation map); each loop iteration receives a `DeepCopy` of the revision, so
revision mutation does not escape an iteration. -/
def exportServiceListForReplay (latestSvc : Service)
    (revisionList : RevisionList) (withRevisions : Bool) :
    Except String ReplayArtifact :=
  if !withRevisions then
    Except.ok (ReplayArtifact.single (exportLatestService latestSvc false).1)
  else
    match getRevisionsToExport latestSvc revisionList with
    | Except.error e => Except.error e
    | Except.ok (sortedList, revsMap) =>
      let st := sortedList.items.foldl
        (fun (acc : List Service × Service) revision =>
          if isExportedHistoricalRevision acc.2 revsMap revision then
            (acc.1 ++ [(constructServiceFromRevision acc.2 revision).1],
             (constructServiceFromRevision acc.2 revision).2.2)
          else acc)
        ([], latestSvc)
      let latest := (exportLatestService st.2 (decide (1 < sortedList.items.length))).1
      Except.ok (ReplayArtifact.list
        { typeMeta := { apiVersion := "v1", kind := "List" }
          items := st.1 ++ [latest] })

/-- `exportForKNImport`. -/
def exportForKNImport (latestSvc : Service) (revisionList : RevisionList)
    (withRevisions : Bool) : Except String Export :=
  if withRevisions then
    match getRevisionsToExport latestSvc revisionList with
    | Except.error e => Except.error e
    | Except.ok (sortedList, revsMap) =>
      let exportedRevItems := sortedList.items.foldl
        (fun acc revision =>
          if isExportedHistoricalRevision latestSvc revsMap revision then
            acc ++ [exportRevision revision]
          else acc)
        []
      let revisionHistoryCount := sortedList.items.length
      Except.ok
        { typeMeta := { apiVersion := "client.knative.dev/v1alpha1", kind := "Export" }
          spec :=
            { service := (exportLatestService latestSvc
                (decide (1 < revisionHistoryCount))).1
              revisions := exportedRevItems } }
  else
    Except.ok
      { typeMeta := { apiVersion := "client.knative.dev/v1alpha1", kind := "Export" }
        spec :=
          { service := (exportLatestService latestSvc false).1
            revisions := [] } }


/-! ## Sample inputs (used by witnesses and counterexamples) -/

/-- A pinned traffic target. -/
def trafficNamed (n : String) (p : Int) : TrafficTarget :=
  { revisionName := n, latestRevision := none, percent := some p, tag := "" }

/-- A latest-indirection traffic target (no explicit revision name). -/
def trafficLatest (p : Int) : TrafficTarget :=
  { revisionName := "", latestRevision := some true, percent := some p, tag := "" }

/-- A live service `foo` with two traffic targets, a routable history and
server-managed metadata that must be sanitized. -/
def svcEx : Service :=
  { typeMeta := { apiVersion := "serving.knative.dev/v1", kind := "Service" }
    metadata :=
      { name := "foo"
        labels :=
          [("serving.knative.dev/configurationUID", "cfg-uid"),
           ("app", "demo"),
           ("serving.knative.dev/serviceUID", "svc-uid")]
        annotations :=
          [("serving.knative.dev/creator", "alice"),
           ("client.knative.dev/user-image", "img"),
           ("serving.knative.dev/lastModifier", "bob")] }
    spec :=
      { template :=
          { metadata :=
              { name := "foo-00002"
                labels := [("serving.knative.dev/configurationUID", "cfg-uid")]
                annotations := [("client.knative.dev/user-image", "img"),
                                ("serving.knative.dev/creator", "alice")] }
            spec := { payload := 2 } }
        traffic := [trafficNamed "foo-00001" 50, trafficLatest 50] }
    status := { latestReadyRevisionName := "foo-00002" } }

def revEx1 : Revision :=
  { typeMeta := { apiVersion := "serving.knative.dev/v1", kind := "Revision" }
    metadata :=
      { name := "foo-00001"
        labels := [(ConfigurationGenerationLabelKey, "1"), ("app", "demo")]
        annotations := [("serving.knative.dev/lastPinned", "t1"), ("k", "v")] }
    spec := { payload := 1 } }

def revEx2 : Revision :=
  { typeMeta := { apiVersion := "serving.knative.dev/v1", kind := "Revision" }
    metadata :=
      { name := "foo-00002"
        labels := [(ConfigurationGenerationLabelKey, "2")]
        annotations := [("serving.knative.dev/creator", "alice")] }
    spec := { payload := 2 } }

/-- The revision history of `svcEx`, deliberately listed newest first. -/
def rlEx : RevisionList := { items := [revEx2, revEx1] }

/-- A revision whose generation label is missing, named `"b"`. -/
def revNoGen : Revision :=
  { typeMeta := { apiVersion := "serving.knative.dev/v1", kind := "Revision" }
    metadata := { name := "b", labels := [], annotations := [] }
    spec := { payload := 10 } }

/-- Generation `1`, named `"a"`. -/
def revGen1 : Revision :=
  { typeMeta := { apiVersion := "serving.knative.dev/v1", kind := "Revision" }
    metadata := { name := "a", labels := [(ConfigurationGenerationLabelKey, "1")]
                  annotations := [] }
    spec := { payload := 11 } }

/-- Generation `2`, named `"c"`. -/
def revGen2 : Revision :=
  { typeMeta := { apiVersion := "serving.knative.dev/v1", kind := "Revision" }
    metadata := { name := "c", labels := [(ConfigurationGenerationLabelKey, "2")]
                  annotations := [] }
    spec := { payload := 12 } }

/-- A list mixing parsed and unparsable generation labels: the comparator's
pairwise requirements are cyclic on it. -/
def rlMixed : RevisionList := { items := [revNoGen, revGen1, revGen2] }

/-- Is a replay-mode result wrapped in the generic list container? -/
def isListArtifact : ReplayArtifact → Bool
  | ReplayArtifact.list _ => true
  | ReplayArtifact.single _ => false

/-- Does a replay-mode result carry the `v1`/`List` container? -/
def replayIsV1List : Except String ReplayArtifact → Bool
  | Except.ok (ReplayArtifact.list L) =>
      L.typeMeta == { apiVersion := "v1", kind := "List" }
  | _ => false

/-- The dual-key requirement the spec states for a pair `(a, b)` with `a`
sorted before `b`: ascending parsed generation when both parse and differ,
name-descending on equal parsed generations, and name-descending whenever
either generation label is missing or non-numeric. -/
def sortPairOk (a b : Revision) : Bool :=
  match parseGen a, parseGen b with
  | some ga, some gb =>
      if ga = gb then !goStringLt a.metadata.name b.metadata.name
      else decide (ga < gb)
  | _, _ => !goStringLt a.metadata.name b.metadata.name

/-- Comparator equivalence: neither revision sorts strictly before the other. -/
def revEquiv (a b : Revision) : Bool :=
  !revisionListSortFunc a b && !revisionListSortFunc b a


/-! ## Helper lemmas -/

theorem stripKeys_eq_filter (m : List (String × String)) (ks : List String) :
    stripKeys m ks = m.filter (fun p => decide (p.1 ∉ ks)) := by
  induction ks generalizing m with
  | nil => simp [stripKeys]
  | cons k ks ih =>
    show stripKeys (mapDelete m k) ks = _
    rw [ih]
    simp only [mapDelete, List.filter_filter]
    refine List.filter_congr ?_
    intro p _
    by_cases hpk : p.1 = k <;> by_cases hpks : p.1 ∈ ks <;>
      simp [hpk, hpks, bne]

theorem stripKeys_idem (m : List (String × String)) (ks : List String) :
    stripKeys (stripKeys m ks) ks = stripKeys m ks := by
  rw [stripKeys_eq_filter, stripKeys_eq_filter, List.filter_filter]
  exact List.filter_congr (fun a _ => by simp)

theorem stripKeys_not_mem (m : List (String × String)) (ks : List String)
    (k : String) (hk : k ∈ ks) : ∀ p ∈ stripKeys m ks, p.1 ≠ k := by
  rw [stripKeys_eq_filter]
  intro p hp
  have := List.of_mem_filter hp
  simp at this
  intro h
  exact this (h ▸ hk)

theorem mapLookupBool_insert (m : List (String × Bool)) (k n : String) (v : Bool) :
    mapLookupBool (mapInsertBool m k v) n =
      if k = n then v else mapLookupBool m n := by
  have hb : (k == n) = decide (k = n) := rfl
  by_cases h : k = n <;>
    simp [mapLookupBool, mapInsertBool, List.find?, hb, h]

/-- The routed-revision map, characterized over the traffic-target fold. -/
theorem getRoutedRevisions_lookup (svc : Service) (n : String) :
    mapLookupBool (getRoutedRevisions svc) n = true ↔
      n ≠ "" ∧ ∃ t ∈ svc.spec.traffic, t.revisionName = n := by
  have key : ∀ (ts : List TrafficTarget) (m : List (String × Bool)),
      mapLookupBool
        (ts.foldl
          (fun revsMap traffic =>
            if traffic.revisionName != "" then
              mapInsertBool revsMap traffic.revisionName true
            else revsMap) m) n = true ↔
      (mapLookupBool m n = true ∨ (n ≠ "" ∧ ∃ t ∈ ts, t.revisionName = n)) := by
    intro ts
    induction ts with
    | nil => simp
    | cons t ts ih =>
      intro m
      simp only [List.foldl_cons]
      rw [ih]
      by_cases ht : t.revisionName = ""
      · simp only [ht, bne_self_eq_false, if_neg Bool.false_ne_true]
        constructor
        · rintro (h | h)
          · exact Or.inl h
          · exact Or.inr ⟨h.1, h.2.imp (fun t' ht' => ⟨List.mem_cons_of_mem _ ht'.1, ht'.2⟩)⟩
        · rintro (h | ⟨hn, t', ht', he⟩)
          · exact Or.inl h
          · rcases List.mem_cons.1 ht' with rfl | ht''
            · exact (hn (by rw [← he]; exact ht)).elim
            · exact Or.inr ⟨hn, t', ht'', he⟩
      · have hbne : (t.revisionName != "") = true := by simp [bne, ht]
        rw [if_pos hbne, mapLookupBool_insert]
        by_cases hn : t.revisionName = n
        · subst hn
          simp [ht]
        · rw [if_neg hn]
          constructor
          · rintro (h | h)
            · exact Or.inl h
            · exact Or.inr ⟨h.1, h.2.imp (fun t' ht' => ⟨List.mem_cons_of_mem _ ht'.1, ht'.2⟩)⟩
          · rintro (h | ⟨hnn, t', ht', he⟩)
            · exact Or.inl h
            · rcases List.mem_cons.1 ht' with rfl | ht''
              · exact absurd he hn
              · exact Or.inr ⟨hnn, t', ht'', he⟩
  rw [getRoutedRevisions, key]
  simp [mapLookupBool]

/-- **C2**: the routed-revision set contains exactly the names that occur as a
non-empty explicit revision name of some traffic target; a revision referenced
only through the latest-indirection flag (empty explicit name) is never a
member. -/
theorem routed_set_exactly_explicit_names (svc : Service) (n : String) :
    mapLookupBool (getRoutedRevisions svc) n = true ↔
      n ≠ "" ∧ ∃ t ∈ svc.spec.traffic, t.revisionName = n :=
  getRoutedRevisions_lookup svc n

/-- **C2-witness**: on the sample service, `foo-00001` is routed (explicitly
named) and `foo-00002` is not (referenced only via the latest flag). -/
theorem routed_set_exactly_explicit_names_witness :
    (mapLookupBool (getRoutedRevisions svcEx) "foo-00001" = true ↔
      "foo-00001" ≠ "" ∧ ∃ t ∈ svcEx.spec.traffic, t.revisionName = "foo-00001") ∧
    (mapLookupBool (getRoutedRevisions svcEx) "foo-00002" = true ↔
      "foo-00002" ≠ "" ∧ ∃ t ∈ svcEx.spec.traffic, t.revisionName = "foo-00002") :=
  ⟨routed_set_exactly_explicit_names svcEx "foo-00001",
   routed_set_exactly_explicit_names svcEx "foo-00002"⟩

/-- **C9**: each of the six strip functions is idempotent. -/
theorem sanitization_idempotent :
    (∀ svc : Service,
      stripIgnoredAnnotationsFromService (stripIgnoredAnnotationsFromService svc) =
        stripIgnoredAnnotationsFromService svc) ∧
    (∀ rev : Revision,
      stripIgnoredAnnotationsFromRevision (stripIgnoredAnnotationsFromRevision rev) =
        stripIgnoredAnnotationsFromRevision rev) ∧
    (∀ t : RevisionTemplateSpec,
      stripIgnoredAnnotationsFromRevisionTemplate
          (stripIgnoredAnnotationsFromRevisionTemplate t) =
        stripIgnoredAnnotationsFromRevisionTemplate t) ∧
    (∀ svc : Service,
      stripIgnoredLabelsFromService (stripIgnoredLabelsFromService svc) =
        stripIgnoredLabelsFromService svc) ∧
    (∀ rev : Revision,
      stripIgnoredLabelsFromRevision (stripIgnoredLabelsFromRevision rev) =
        stripIgnoredLabelsFromRevision rev) ∧
    (∀ t : RevisionTemplateSpec,
      stripIgnoredLabelsFromRevisionTemplate
          (stripIgnoredLabelsFromRevisionTemplate t) =
        stripIgnoredLabelsFromRevisionTemplate t) := by
  refine ⟨?_, ?_, ?_, ?_, ?_, ?_⟩ <;> intro x <;>
    simp [stripIgnoredAnnotationsFromService, stripIgnoredAnnotationsFromRevision,
      stripIgnoredAnnotationsFromRevisionTemplate, stripIgnoredLabelsFromService,
      stripIgnoredLabelsFromRevision, stripIgnoredLabelsFromRevisionTemplate,
      stripKeys_idem]

/-- **C4**: when the revision list query yields an empty list, the selector and
both export modes (with history requested) fail with the descriptive error
naming the service, and no artifact is produced. -/
theorem export_fails_on_empty_revisions (svc : Service) (rl : RevisionList)
    (h : rl.items = []) :
    getRevisionsToExport svc rl =
        Except.error ("no revisions found for the service " ++ svc.metadata.name) ∧
    exportServiceListForReplay svc rl true =
        Except.error ("no revisions found for the service " ++ svc.metadata.name) ∧
    exportForKNImport svc rl true =
        Except.error ("no revisions found for the service " ++ svc.metadata.name) := by
  have h0 : getRevisionsToExport svc rl =
      Except.error ("no revisions found for the service " ++ svc.metadata.name) := by
    simp [getRevisionsToExport, h]
  refine ⟨h0, ?_, ?_⟩
  · simp [exportServiceListForReplay, h0]
  · simp [exportForKNImport, h0]

/-- **C4-witness**: the empty history of service `foo` produces exactly the
error `"no revisions found for the service foo"` in the selector and in both
export modes. -/
theorem export_fails_on_empty_revisions_witness :
    getRevisionsToExport svcEx { items := [] } =
        Except.error ("no revisions found for the service " ++ svcEx.metadata.name) ∧
    exportServiceListForReplay svcEx { items := [] } true =
        Except.error ("no revisions found for the service " ++ svcEx.metadata.name) ∧
    exportForKNImport svcEx { items := [] } true =
        Except.error ("no revisions found for the service " ++ svcEx.metadata.name) :=
  export_fails_on_empty_revisions svcEx { items := [] } rfl

theorem exportLatestService_fst_traffic (svc : Service) (withRoutes : Bool) :
    (exportLatestService svc withRoutes).1.spec.traffic =
      if withRoutes then
        svc.spec.traffic.map (fun t =>
          if t.latestRevision = some true then
            { t with revisionName := svc.status.latestReadyRevisionName }
          else t)
      else [] := by
  cases withRoutes <;>
    simp [exportLatestService, stripIgnoredAnnotationsFromService,
      stripIgnoredLabelsFromService, stripIgnoredAnnotationsFromRevisionTemplate,
      stripIgnoredLabelsFromRevisionTemplate]

/-- **C6**: with routes included, the exported traffic is the live traffic
except that every target carrying a true latest-indirection flag has its
revision name rewritten to the status's latest-ready-revision name; all other
targets are kept verbatim. -/
theorem latest_service_materializes_latest_indirection (svc : Service) :
    List.Forall₂ (fun t t' =>
        (t.latestRevision = some true →
          t' = { t with revisionName := svc.status.latestReadyRevisionName }) ∧
        (t.latestRevision ≠ some true → t' = t))
      svc.spec.traffic ((exportLatestService svc true).1.spec.traffic) := by
  rw [exportLatestService_fst_traffic, if_pos rfl]
  generalize svc.spec.traffic = l
  induction l with
  | nil => exact List.Forall₂.nil
  | cons t ts ih =>
    refine List.Forall₂.cons ⟨?_, ?_⟩ ih
    · intro ht; simp [ht]
    · intro ht; simp [ht]

/-- **C6-witness**: on the sample service, the pinned target keeps its name and
the latest-indirection target is rewritten to `foo-00002`. -/
theorem latest_service_materializes_latest_indirection_witness :
    List.Forall₂ (fun t t' =>
        (t.latestRevision = some true →
          t' = { t with revisionName := svcEx.status.latestReadyRevisionName }) ∧
        (t.latestRevision ≠ some true → t' = t))
      svcEx.spec.traffic ((exportLatestService svcEx true).1.spec.traffic) :=
  latest_service_materializes_latest_indirection svcEx

/-- **C10**: the builders alias rather than copy: the historical-state builder
sanitizes its revision argument in place and installs that same annotation map
as the produced template's annotations, and it strips the service deny-list
annotations through the map shared with the input service; the latest-state
builder's returned service shares its label/annotation maps and its template
metadata maps with the post-call input service, whose metadata has the
deny-list keys deleted. -/
theorem builders_alias_and_mutate_inputs (svc : Service) (rev : Revision)
    (withRoutes : Bool) :
    ((constructServiceFromRevision svc rev).2.1 =
        stripIgnoredAnnotationsFromRevision rev) ∧
    ((constructServiceFromRevision svc rev).1.spec.template.metadata.annotations =
        (constructServiceFromRevision svc rev).2.1.metadata.annotations) ∧
    ((constructServiceFromRevision svc rev).2.2 =
        { svc with metadata.annotations :=
            (constructServiceFromRevision svc rev).1.metadata.annotations }) ∧
    ((constructServiceFromRevision svc rev).2.2.metadata.annotations =
        stripKeys svc.metadata.annotations IgnoredServiceAnnotations) ∧
    ((exportLatestService svc withRoutes).2.metadata.annotations =
        (exportLatestService svc withRoutes).1.metadata.annotations) ∧
    ((exportLatestService svc withRoutes).2.metadata.labels =
        (exportLatestService svc withRoutes).1.metadata.labels) ∧
    ((exportLatestService svc withRoutes).2.spec.template.metadata.annotations =
        (exportLatestService svc withRoutes).1.spec.template.metadata.annotations) ∧
    ((exportLatestService svc withRoutes).2.spec.template.metadata.labels =
        (exportLatestService svc withRoutes).1.spec.template.metadata.labels) ∧
    ((exportLatestService svc withRoutes).2.metadata.annotations =
        stripKeys svc.metadata.annotations IgnoredServiceAnnotations) ∧
    ((exportLatestService svc withRoutes).2.metadata.labels =
        stripKeys svc.metadata.labels IgnoredServiceLabels) := by
  refine ⟨?_, ?_, ?_, ?_, ?_, ?_, ?_, ?_, ?_, ?_⟩ <;> cases withRoutes <;>
    simp [constructServiceFromRevision, exportLatestService,
      stripIgnoredAnnotationsFromService, stripIgnoredAnnotationsFromRevision,
      stripIgnoredLabelsFromService, stripIgnoredAnnotationsFromRevisionTemplate,
      stripIgnoredLabelsFromRevisionTemplate]

/-- **C8-counterexample**: the historical-state builder does not strip the
service label deny-list: with the configuration-UID label on the live
service's metadata, the produced service still carries it. -/
theorem historical_builder_keeps_service_labels_cex :
    ("serving.knative.dev/configurationUID", "cfg-uid") ∈
      (constructServiceFromRevision svcEx revEx1).1.metadata.labels ∧
    "serving.knative.dev/configurationUID" ∈ IgnoredServiceLabels := by
  constructor
  · show _ ∈ svcEx.metadata.labels
    decide
  · decide

/-- **C8-amended**: the service produced by the historical-state builder has
no key of the service annotation deny-list left in its annotations, but its
labels are the live service's labels verbatim — the label deny-list
(configuration UID, service UID) is not applied by this builder. -/
theorem historical_builder_sanitizes_annotations_only (svc : Service)
    (rev : Revision) :
    (∀ k ∈ IgnoredServiceAnnotations,
      ∀ p ∈ (constructServiceFromRevision svc rev).1.metadata.annotations,
        p.1 ≠ k) ∧
    (constructServiceFromRevision svc rev).1.metadata.labels =
      svc.metadata.labels := by
  constructor
  · intro k hk p hp
    refine stripKeys_not_mem svc.metadata.annotations IgnoredServiceAnnotations k hk p ?_
    simpa [constructServiceFromRevision, stripIgnoredAnnotationsFromService,
      stripIgnoredAnnotationsFromRevision] using hp
  · rfl

/-- **C8-witness**: on the sample inputs, the kept annotation
`client.knative.dev/user-image` indeed differs from the stripped key
`serving.knative.dev/creator`, and the labels come through verbatim. -/
theorem historical_builder_sanitizes_annotations_only_witness :
    ("client.knative.dev/user-image", "img").1 ≠ "serving.knative.dev/creator" ∧
    (constructServiceFromRevision svcEx revEx1).1.metadata.labels =
      svcEx.metadata.labels :=
  ⟨(historical_builder_sanitizes_annotations_only svcEx revEx1).1
      "serving.knative.dev/creator" (by decide)
      ("client.knative.dev/user-image", "img") (by decide),
   (historical_builder_sanitizes_annotations_only svcEx revEx1).2⟩

/-- **C7-counterexample**: without `--with-revisions`, replay mode returns the
bare latest service, not a `v1`/`List` container. -/
theorem replay_without_history_is_not_a_list_cex :
    exportServiceListForReplay svcEx rlEx false =
      Except.ok (ReplayArtifact.single (exportLatestService svcEx false).1) ∧
    isListArtifact (ReplayArtifact.single (exportLatestService svcEx false).1) = false ∧
    (exportLatestService svcEx false).1.typeMeta.kind ≠ "List" := by
  refine ⟨rfl, rfl, by decide⟩

/-- **C7-amended**: when revision history is requested (and the history is
non-empty), the replay artifact is wrapped in the generic `v1`/`List`
container of service items; without history the artifact is the single
latest-state service, unwrapped. -/
theorem replay_artifact_shape (svc : Service) (rl : RevisionList) :
    (rl.items ≠ [] →
      replayIsV1List (exportServiceListForReplay svc rl true) = true) ∧
    exportServiceListForReplay svc rl false =
      Except.ok (ReplayArtifact.single (exportLatestService svc false).1) := by
  constructor
  · intro h
    have hne : ¬ rl.items.length = 0 := by
      simpa using h
    simp [exportServiceListForReplay, getRevisionsToExport, hne, replayIsV1List]
  · rfl

/-- **C7-witness**: on the sample inputs, the with-history replay artifact is a
`v1`/`List` container and the no-history artifact is the bare service. -/
theorem replay_artifact_shape_witness :
    replayIsV1List (exportServiceListForReplay svcEx rlEx true) = true ∧
    exportServiceListForReplay svcEx rlEx false =
      Except.ok (ReplayArtifact.single (exportLatestService svcEx false).1) :=
  ⟨(replay_artifact_shape svcEx rlEx).1 (by decide),
   (replay_artifact_shape svcEx rlEx).2⟩

/-! ## Permutation and length of the stable sort -/

theorem insRev_perm (less : α → α → Bool) (x : α) (l : List α) :
    (insRev less x l).Perm (x :: l) := by
  induction l with
  | nil => exact List.Perm.refl _
  | cons y ys ih =>
    by_cases h : less x y = true
    · simp only [insRev, if_pos h]
      exact (ih.cons y).trans (List.Perm.swap x y ys)
    · simp only [insRev, if_neg h]
      exact List.Perm.refl _

theorem foldl_insRev_perm (less : α → α → Bool) :
    ∀ (l acc : List α),
      (l.foldl (fun acc y => insRev less y acc) acc).Perm (l ++ acc) := by
  intro l
  induction l with
  | nil => intro acc; exact List.Perm.refl _
  | cons x xs ih =>
    intro acc
    rw [List.foldl_cons]
    refine (ih (insRev less x acc)).trans ?_
    refine ((insRev_perm less x acc).append_left xs).trans ?_
    exact List.perm_middle

theorem sortSliceStable_perm (less : α → α → Bool) (l : List α) :
    (sortSliceStable less l).Perm l := by
  refine (List.reverse_perm _).trans ?_
  simpa using foldl_insRev_perm less l []

theorem sortSliceStable_length (less : α → α → Bool) (l : List α) :
    (sortSliceStable less l).length = l.length :=
  (sortSliceStable_perm less l).length_eq

theorem sortRevisions_items_length (rl : RevisionList) :
    (sortRevisions rl).items.length = rl.items.length :=
  sortSliceStable_length _ _

/-! ## Builder invariance under the service-annotation strip -/

theorem stripAnnSvc_idem (svc : Service) :
    stripIgnoredAnnotationsFromService (stripIgnoredAnnotationsFromService svc) =
      stripIgnoredAnnotationsFromService svc := by
  simp [stripIgnoredAnnotationsFromService, stripKeys_idem]

theorem construct_third_eq (svc : Service) (rev : Revision) :
    (constructServiceFromRevision svc rev).2.2 =
      stripIgnoredAnnotationsFromService svc := by
  simp [constructServiceFromRevision, stripIgnoredAnnotationsFromService]

theorem construct_fst_stripSvc (svc : Service) (rev : Revision) :
    (constructServiceFromRevision (stripIgnoredAnnotationsFromService svc) rev).1 =
      (constructServiceFromRevision svc rev).1 := by
  simp [constructServiceFromRevision, stripIgnoredAnnotationsFromService,
    stripIgnoredAnnotationsFromRevision, stripKeys_idem]

theorem exportLatest_fst_stripSvc (svc : Service) (w : Bool) :
    (exportLatestService (stripIgnoredAnnotationsFromService svc) w).1 =
      (exportLatestService svc w).1 := by
  cases w <;>
    simp [exportLatestService, stripIgnoredAnnotationsFromService,
      stripIgnoredLabelsFromService, stripIgnoredAnnotationsFromRevisionTemplate,
      stripIgnoredLabelsFromRevisionTemplate, stripKeys_idem]

theorem isExported_stripSvc (svc : Service) (m : List (String × Bool))
    (r : Revision) :
    isExportedHistoricalRevision (stripIgnoredAnnotationsFromService svc) m r =
      isExportedHistoricalRevision svc m r := rfl

theorem getRevisionsToExport_ok (svc : Service) (rl : RevisionList)
    (h : rl.items ≠ []) :
    getRevisionsToExport svc rl =
      Except.ok (sortRevisions rl, getRoutedRevisions svc) := by
  have hne : ¬ rl.items.length = 0 := by simpa using h
  simp [getRevisionsToExport, hne]

/-! ## Closed forms of the two assemblers -/

theorem replay_fold_eq (svc : Service) (revsMap : List (String × Bool)) :
    ∀ (l : List Revision) (acc : List Service) (s : Service),
      (s = svc ∨ s = stripIgnoredAnnotationsFromService svc) →
      ((l.foldl
          (fun (acc : List Service × Service) revision =>
            if isExportedHistoricalRevision acc.2 revsMap revision then
              (acc.1 ++ [(constructServiceFromRevision acc.2 revision).1],
               (constructServiceFromRevision acc.2 revision).2.2)
            else acc)
          (acc, s)).1 =
        acc ++ (l.filter (isExportedHistoricalRevision svc revsMap)).map
          (fun r => (constructServiceFromRevision svc r).1)) ∧
      ((l.foldl
          (fun (acc : List Service × Service) revision =>
            if isExportedHistoricalRevision acc.2 revsMap revision then
              (acc.1 ++ [(constructServiceFromRevision acc.2 revision).1],
               (constructServiceFromRevision acc.2 revision).2.2)
            else acc)
          (acc, s)).2 = svc ∨
       (l.foldl
          (fun (acc : List Service × Service) revision =>
            if isExportedHistoricalRevision acc.2 revsMap revision then
              (acc.1 ++ [(constructServiceFromRevision acc.2 revision).1],
               (constructServiceFromRevision acc.2 revision).2.2)
            else acc)
          (acc, s)).2 = stripIgnoredAnnotationsFromService svc) := by
  intro l
  induction l with
  | nil =>
    intro acc s hs
    exact ⟨by simp, hs⟩
  | cons r rs ih =>
    intro acc s hs
    have hcond : isExportedHistoricalRevision s revsMap r =
        isExportedHistoricalRevision svc revsMap r := by
      rcases hs with rfl | rfl
      · rfl
      · exact isExported_stripSvc svc revsMap r
    have h1 : (constructServiceFromRevision s r).1 =
        (constructServiceFromRevision svc r).1 := by
      rcases hs with rfl | rfl
      · rfl
      · exact construct_fst_stripSvc svc r
    have h2 : (constructServiceFromRevision s r).2.2 =
        stripIgnoredAnnotationsFromService svc := by
      rcases hs with rfl | rfl
      · apply construct_third_eq
      · rw [construct_third_eq]
        apply stripAnnSvc_idem
    rw [List.foldl_cons]
    by_cases hc : isExportedHistoricalRevision svc revsMap r = true
    · have hinit :
          (if isExportedHistoricalRevision (acc, s).2 revsMap r = true then
            ((acc, s).1 ++ [(constructServiceFromRevision (acc, s).2 r).1],
              (constructServiceFromRevision (acc, s).2 r).2.2)
          else (acc, s)) =
          (acc ++ [(constructServiceFromRevision svc r).1],
            stripIgnoredAnnotationsFromService svc) := by
        show (if isExportedHistoricalRevision s revsMap r = true then
            (acc ++ [(constructServiceFromRevision s r).1],
              (constructServiceFromRevision s r).2.2)
          else (acc, s)) = _
        rw [hcond, if_pos hc, h1, h2]
      rw [hinit]
      obtain ⟨ha, hb⟩ := ih (acc ++ [(constructServiceFromRevision svc r).1])
        (stripIgnoredAnnotationsFromService svc) (Or.inr rfl)
      refine ⟨?_, hb⟩
      rw [ha, List.filter_cons, if_pos hc]
      simp
    · have hinit :
          (if isExportedHistoricalRevision (acc, s).2 revsMap r = true then
            ((acc, s).1 ++ [(constructServiceFromRevision (acc, s).2 r).1],
              (constructServiceFromRevision (acc, s).2 r).2.2)
          else (acc, s)) = (acc, s) := by
        show (if isExportedHistoricalRevision s revsMap r = true then
            (acc ++ [(constructServiceFromRevision s r).1],
              (constructServiceFromRevision s r).2.2)
          else (acc, s)) = _
        rw [hcond, if_neg hc]
      rw [hinit]
      obtain ⟨ha, hb⟩ := ih acc s hs
      refine ⟨?_, hb⟩
      rw [ha, List.filter_cons]
      simp [hc]

theorem import_fold_eq (svc : Service) (revsMap : List (String × Bool)) :
    ∀ (l : List Revision) (acc : List Revision),
      l.foldl
        (fun acc revision =>
          if isExportedHistoricalRevision svc revsMap revision then
            acc ++ [exportRevision revision]
          else acc) acc =
      acc ++ (l.filter (isExportedHistoricalRevision svc revsMap)).map
        exportRevision := by
  intro l
  induction l with
  | nil => intro acc; simp
  | cons r rs ih =>
    intro acc
    rw [List.foldl_cons]
    by_cases hc : isExportedHistoricalRevision svc revsMap r = true
    · rw [if_pos hc, ih, List.filter_cons, if_pos hc]
      simp
    · rw [if_neg hc, ih, List.filter_cons]
      simp [hc]

theorem replay_ok_eq (svc : Service) (rl : RevisionList) (h : rl.items ≠ []) :
    exportServiceListForReplay svc rl true = Except.ok (ReplayArtifact.list
      { typeMeta := { apiVersion := "v1", kind := "List" }
        items :=
          ((sortSliceStable revisionListSortFunc rl.items).filter
              (isExportedHistoricalRevision svc (getRoutedRevisions svc))).map
            (fun r => (constructServiceFromRevision svc r).1)
          ++ [(exportLatestService svc (decide (1 < rl.items.length))).1] }) := by
  obtain ⟨ha, hb⟩ := replay_fold_eq svc (getRoutedRevisions svc)
    (sortRevisions rl).items [] svc (Or.inl rfl)
  have hlat :
      (exportLatestService
        ((sortRevisions rl).items.foldl
          (fun (acc : List Service × Service) revision =>
            if isExportedHistoricalRevision acc.2 (getRoutedRevisions svc) revision then
              (acc.1 ++ [(constructServiceFromRevision acc.2 revision).1],
               (constructServiceFromRevision acc.2 revision).2.2)
            else acc)
          ([], svc)).2
        (decide (1 < (sortRevisions rl).items.length))).1 =
      (exportLatestService svc (decide (1 < rl.items.length))).1 := by
    rw [sortRevisions_items_length]
    rcases hb with hb | hb
    · rw [hb]
    · rw [hb]
      exact exportLatest_fst_stripSvc svc _
  simp only [exportServiceListForReplay, Bool.not_true, getRevisionsToExport_ok svc rl h]
  rw [ha] at *
  simp only [List.nil_append] at *
  rw [hlat]
  rfl

theorem import_ok_eq (svc : Service) (rl : RevisionList) (h : rl.items ≠ []) :
    exportForKNImport svc rl true = Except.ok
      { typeMeta := { apiVersion := "client.knative.dev/v1alpha1", kind := "Export" }
        spec :=
          { service := (exportLatestService svc (decide (1 < rl.items.length))).1
            revisions :=
              ((sortSliceStable revisionListSortFunc rl.items).filter
                  (isExportedHistoricalRevision svc (getRoutedRevisions svc))).map
                exportRevision } } := by
  simp only [exportForKNImport, getRevisionsToExport_ok svc rl h]
  rw [import_fold_eq svc (getRoutedRevisions svc) (sortRevisions rl).items []]
  rw [sortRevisions_items_length]
  rfl

/-- **C3**: with history requested (and a non-empty history), both export
modes include, in sorted order, exactly the revisions that are in the routed
set and whose name differs from the live template's current revision name;
in particular no historical item carries the current revision's name. -/
theorem history_excludes_current_revision (svc : Service) (rl : RevisionList)
    (h : rl.items ≠ []) :
    exportServiceListForReplay svc rl true = Except.ok (ReplayArtifact.list
      { typeMeta := { apiVersion := "v1", kind := "List" }
        items :=
          ((sortSliceStable revisionListSortFunc rl.items).filter
              (isExportedHistoricalRevision svc (getRoutedRevisions svc))).map
            (fun r => (constructServiceFromRevision svc r).1)
          ++ [(exportLatestService svc (decide (1 < rl.items.length))).1] }) ∧
    exportForKNImport svc rl true = Except.ok
      { typeMeta := { apiVersion := "client.knative.dev/v1alpha1", kind := "Export" }
        spec :=
          { service := (exportLatestService svc (decide (1 < rl.items.length))).1
            revisions :=
              ((sortSliceStable revisionListSortFunc rl.items).filter
                  (isExportedHistoricalRevision svc (getRoutedRevisions svc))).map
                exportRevision } } ∧
    (∀ r ∈ (sortSliceStable revisionListSortFunc rl.items).filter
        (isExportedHistoricalRevision svc (getRoutedRevisions svc)),
      mapLookupBool (getRoutedRevisions svc) r.metadata.name = true ∧
      r.metadata.name ≠ svc.spec.template.metadata.name) := by
  refine ⟨replay_ok_eq svc rl h, import_ok_eq svc rl h, ?_⟩
  intro r hr
  have hm := (List.mem_filter.1 hr).2
  simp only [isExportedHistoricalRevision, Bool.and_eq_true, bne_iff_ne] at hm
  exact hm

/-- **C3-witness**: concrete run on the sample service and its two-revision
history. -/
theorem history_excludes_current_revision_witness :
    exportServiceListForReplay svcEx rlEx true = Except.ok (ReplayArtifact.list
      { typeMeta := { apiVersion := "v1", kind := "List" }
        items :=
          ((sortSliceStable revisionListSortFunc rlEx.items).filter
              (isExportedHistoricalRevision svcEx (getRoutedRevisions svcEx))).map
            (fun r => (constructServiceFromRevision svcEx r).1)
          ++ [(exportLatestService svcEx (decide (1 < rlEx.items.length))).1] }) ∧
    exportForKNImport svcEx rlEx true = Except.ok
      { typeMeta := { apiVersion := "client.knative.dev/v1alpha1", kind := "Export" }
        spec :=
          { service := (exportLatestService svcEx (decide (1 < rlEx.items.length))).1
            revisions :=
              ((sortSliceStable revisionListSortFunc rlEx.items).filter
                  (isExportedHistoricalRevision svcEx (getRoutedRevisions svcEx))).map
                exportRevision } } ∧
    (∀ r ∈ (sortSliceStable revisionListSortFunc rlEx.items).filter
        (isExportedHistoricalRevision svcEx (getRoutedRevisions svcEx)),
      mapLookupBool (getRoutedRevisions svcEx) r.metadata.name = true ∧
      r.metadata.name ≠ svcEx.spec.template.metadata.name) :=
  history_excludes_current_revision svcEx rlEx (by decide)

/-- **C5**: with history requested, the latest-state service of the artifact
carries the (indirection-materialized) live traffic spec iff the revision list
query returned more than one revision, and an empty traffic spec otherwise —
in both export modes. -/
theorem latest_traffic_iff_multiple_revisions (svc : Service) (rl : RevisionList)
    (h : rl.items ≠ []) :
    (∃ e, exportForKNImport svc rl true = Except.ok e ∧
      e.spec.service.spec.traffic =
        (if 1 < rl.items.length then
          svc.spec.traffic.map (fun t =>
            if t.latestRevision = some true then
              { t with revisionName := svc.status.latestReadyRevisionName }
            else t)
        else [])) ∧
    (∃ L, exportServiceListForReplay svc rl true =
        Except.ok (ReplayArtifact.list L) ∧
      L.items.getLast? =
        some (exportLatestService svc (decide (1 < rl.items.length))).1 ∧
      (exportLatestService svc (decide (1 < rl.items.length))).1.spec.traffic =
        (if 1 < rl.items.length then
          svc.spec.traffic.map (fun t =>
            if t.latestRevision = some true then
              { t with revisionName := svc.status.latestReadyRevisionName }
            else t)
        else [])) := by
  constructor
  · refine ⟨_, import_ok_eq svc rl h, ?_⟩
    show (exportLatestService svc (decide (1 < rl.items.length))).1.spec.traffic = _
    rw [exportLatestService_fst_traffic]
    by_cases h1 : 1 < rl.items.length <;> simp [h1]
  · refine ⟨_, replay_ok_eq svc rl h, ?_, ?_⟩
    · exact List.getLast?_concat _
    · rw [exportLatestService_fst_traffic]
      by_cases h1 : 1 < rl.items.length <;> simp [h1]

/-- **C5-witness**: concrete run on the sample service and its two-revision
history (two revisions, so traffic is included). -/
theorem latest_traffic_iff_multiple_revisions_witness :
    (∃ e, exportForKNImport svcEx rlEx true = Except.ok e ∧
      e.spec.service.spec.traffic =
        (if 1 < rlEx.items.length then
          svcEx.spec.traffic.map (fun t =>
            if t.latestRevision = some true then
              { t with revisionName := svcEx.status.latestReadyRevisionName }
            else t)
        else [])) ∧
    (∃ L, exportServiceListForReplay svcEx rlEx true =
        Except.ok (ReplayArtifact.list L) ∧
      L.items.getLast? =
        some (exportLatestService svcEx (decide (1 < rlEx.items.length))).1 ∧
      (exportLatestService svcEx (decide (1 < rlEx.items.length))).1.spec.traffic =
        (if 1 < rlEx.items.length then
          svcEx.spec.traffic.map (fun t =>
            if t.latestRevision = some true then
              { t with revisionName := svcEx.status.latestReadyRevisionName }
            else t)
        else [])) :=
  latest_traffic_iff_multiple_revisions svcEx rlEx (by decide)

/-! ## Sortedness and stability of the stable insertion sort, for comparators
that are strict weak orders on the elements involved -/

theorem insRev_pairwise (less : α → α → Bool) (x : α) :
    ∀ l : List α,
      (∀ a ∈ l, less x a = true → less a x = false) →
      (∀ a ∈ l, ∀ b ∈ l, less x a = false → less a b = false → less x b = false) →
      l.Pairwise (fun a b => less a b = false) →
      (insRev less x l).Pairwise (fun a b => less a b = false) := by
  intro l
  induction l with
  | nil =>
    intro _ _ _
    simp [insRev]
  | cons y ys ih =>
    intro hasym hneg hl
    rw [List.pairwise_cons] at hl
    obtain ⟨hy, hys⟩ := hl
    by_cases hxy : less x y = true
    · simp only [insRev, if_pos hxy]
      rw [List.pairwise_cons]
      constructor
      · intro z hz
        rcases List.mem_cons.1 ((insRev_perm less x ys).mem_iff.1 hz) with rfl | hz'
        · exact hasym y (List.mem_cons_self y ys) hxy
        · exact hy z hz'
      · exact ih (fun a ha => hasym a (List.mem_cons_of_mem _ ha))
          (fun a ha b hb => hneg a (List.mem_cons_of_mem _ ha) b
            (List.mem_cons_of_mem _ hb))
          hys
    · have hxy' : less x y = false := by
        cases hv : less x y
        · rfl
        · exact absurd hv hxy
      simp only [insRev, if_neg hxy]
      rw [List.pairwise_cons]
      constructor
      · intro z hz
        rcases List.mem_cons.1 hz with rfl | hz'
        · exact hxy'
        · exact hneg y (List.mem_cons_self y ys) z (List.mem_cons_of_mem _ hz')
            hxy' (hy z hz')
      · exact List.Pairwise.cons hy hys

theorem foldl_insRev_pairwise (less : α → α → Bool) (l₀ : List α)
    (hasym : ∀ a ∈ l₀, ∀ b ∈ l₀, less a b = true → less b a = false)
    (hneg : ∀ a ∈ l₀, ∀ b ∈ l₀, ∀ c ∈ l₀,
      less a b = false → less b c = false → less a c = false) :
    ∀ (l acc : List α),
      (∀ z ∈ l, z ∈ l₀) → (∀ z ∈ acc, z ∈ l₀) →
      acc.Pairwise (fun a b => less a b = false) →
      (l.foldl (fun acc y => insRev less y acc) acc).Pairwise
        (fun a b => less a b = false) := by
  intro l
  induction l with
  | nil =>
    intro acc _ _ hp
    exact hp
  | cons x xs ih =>
    intro acc hl hacc hp
    rw [List.foldl_cons]
    have hx : x ∈ l₀ := hl x (List.mem_cons_self x xs)
    have hmem : ∀ z ∈ insRev less x acc, z ∈ l₀ := by
      intro z hz
      rcases List.mem_cons.1 ((insRev_perm less x acc).mem_iff.1 hz) with rfl | hz'
      · exact hx
      · exact hacc z hz'
    refine ih (insRev less x acc) (fun z hz => hl z (List.mem_cons_of_mem _ hz))
      hmem ?_
    exact insRev_pairwise less x acc
      (fun a ha h => hasym x hx a (hacc a ha) h)
      (fun a ha b hb h1 h2 => hneg x hx a (hacc a ha) b (hacc b hb) h1 h2)
      hp

theorem sortSliceStable_pairwise (less : α → α → Bool) (l : List α)
    (hasym : ∀ a ∈ l, ∀ b ∈ l, less a b = true → less b a = false)
    (hneg : ∀ a ∈ l, ∀ b ∈ l, ∀ c ∈ l,
      less a b = false → less b c = false → less a c = false) :
    (sortSliceStable less l).Pairwise (fun a b => less b a = false) := by
  show ((l.foldl (fun acc y => insRev less y acc) []).reverse).Pairwise _
  rw [List.pairwise_reverse]
  exact foldl_insRev_pairwise less l hasym hneg l [] (fun z hz => hz)
    (by simp) (by simp)

theorem insRev_filter (less : α → α → Bool) (p : α → Bool) (x : α) :
    ∀ l : List α,
      (p x = true → ∀ y ∈ l, p y = true → less x y = false) →
      (insRev less x l).filter p =
        (if p x = true then [x] else []) ++ l.filter p := by
  intro l
  induction l with
  | nil =>
    intro _
    cases hpx : p x <;> simp [insRev, hpx]
  | cons y ys ih =>
    intro hpass
    by_cases hxy : less x y = true
    · simp only [insRev, if_pos hxy]
      rw [List.filter_cons,
        ih (fun hpx z hz hpz => hpass hpx z (List.mem_cons_of_mem _ hz) hpz),
        List.filter_cons]
      by_cases hpy : p y = true
      · have hpx : ¬ p x = true := by
          intro hpx
          have := hpass hpx y (List.mem_cons_self y ys) hpy
          rw [hxy] at this
          exact absurd this (by simp)
        have hpx' : p x = false := by
          cases hv : p x
          · rfl
          · exact absurd hv hpx
        simp [hpy, hpx']
      · have hpy' : p y = false := by
          cases hv : p y
          · rfl
          · exact absurd hv hpy
        simp [hpy']
    · simp only [insRev, if_neg hxy]
      rw [List.filter_cons]
      by_cases hpx : p x = true
      · simp [hpx]
      · have hpx' : p x = false := by
          cases hv : p x
          · rfl
          · exact absurd hv hpx
        simp [hpx']

theorem foldl_insRev_filter (less : α → α → Bool) (p : α → Bool) (l₀ : List α)
    (hp : ∀ x ∈ l₀, ∀ y ∈ l₀, p x = true → p y = true → less x y = false) :
    ∀ (l acc : List α),
      (∀ z ∈ l, z ∈ l₀) → (∀ z ∈ acc, z ∈ l₀) →
      (l.foldl (fun acc y => insRev less y acc) acc).filter p =
        (l.filter p).reverse ++ acc.filter p := by
  intro l
  induction l with
  | nil =>
    intro acc _ _
    simp
  | cons x xs ih =>
    intro acc hl hacc
    rw [List.foldl_cons]
    have hx : x ∈ l₀ := hl x (List.mem_cons_self x xs)
    have hmem : ∀ z ∈ insRev less x acc, z ∈ l₀ := by
      intro z hz
      rcases List.mem_cons.1 ((insRev_perm less x acc).mem_iff.1 hz) with rfl | hz'
      · exact hx
      · exact hacc z hz'
    rw [ih (insRev less x acc) (fun z hz => hl z (List.mem_cons_of_mem _ hz)) hmem,
      insRev_filter less p x acc (fun hpx y hy hpy => hp x hx y (hacc y hy) hpx hpy),
      List.filter_cons]
    by_cases hpx : p x = true
    · simp [hpx]
    · have hpx' : p x = false := by
        cases hv : p x
        · rfl
        · exact absurd hv hpx
      simp [hpx']

theorem filter_reverse_eq (p : α → Bool) (l : List α) :
    l.reverse.filter p = (l.filter p).reverse := by
  induction l with
  | nil => rfl
  | cons x xs ih =>
    rw [List.reverse_cons, List.filter_append, ih, List.filter_cons]
    cases hpx : p x <;> simp [List.filter_cons, hpx]

theorem sortSliceStable_filter (less : α → α → Bool) (p : α → Bool) (l : List α)
    (hp : ∀ x ∈ l, ∀ y ∈ l, p x = true → p y = true → less x y = false) :
    (sortSliceStable less l).filter p = l.filter p := by
  show ((l.foldl (fun acc y => insRev less y acc) []).reverse).filter p = _
  rw [filter_reverse_eq,
    foldl_insRev_filter less p l hp l [] (fun z hz => hz) (by simp)]
  simp

theorem pairwise_imp_of_mem {R S : α → α → Prop} {l : List α}
    (h : ∀ a b, a ∈ l → b ∈ l → R a b → S a b) (hp : l.Pairwise R) :
    l.Pairwise S := by
  induction hp with
  | nil => exact List.Pairwise.nil
  | @cons x xs hx hxs ih =>
    refine List.Pairwise.cons ?_ (ih ?_)
    · intro y hy
      exact h x y (List.mem_cons_self _ _) (List.mem_cons_of_mem _ hy) (hx y hy)
    · intro a b ha hb hr
      exact h a b (List.mem_cons_of_mem _ ha) (List.mem_cons_of_mem _ hb) hr

/-! ## The comparator on uniformly-parsed (or uniformly-unparsed) lists -/

theorem goCharsLt_asymm : ∀ x y : List Char,
    goCharsLt x y = true → goCharsLt y x = false := by
  intro x
  induction x with
  | nil =>
    intro y h
    cases y with
    | nil => exact absurd h (by simp [goCharsLt])
    | cons b bs => simp [goCharsLt]
  | cons a as ih =>
    intro y h
    cases y with
    | nil => exact absurd h (by simp [goCharsLt])
    | cons b bs =>
      simp only [goCharsLt] at h ⊢
      by_cases hab : a.toNat < b.toNat
      · rw [if_neg (show ¬ b.toNat < a.toNat by omega), if_pos hab]
      · rw [if_neg hab] at h
        by_cases hba : b.toNat < a.toNat
        · rw [if_pos hba] at h
          exact absurd h (by simp)
        · rw [if_neg hba] at h
          rw [if_neg hba, if_neg hab]
          exact ih bs h

theorem goCharsLt_negtrans : ∀ x y z : List Char,
    goCharsLt x y = false → goCharsLt y z = false → goCharsLt x z = false := by
  intro x
  induction x with
  | nil =>
    intro y z h1 h2
    cases y with
    | nil => exact h2
    | cons b bs => exact absurd h1 (by simp [goCharsLt])
  | cons a as ih =>
    intro y z h1 h2
    cases y with
    | nil =>
      cases z with
      | nil => simp [goCharsLt]
      | cons c cs => exact absurd h2 (by simp [goCharsLt])
    | cons b bs =>
      cases z with
      | nil => simp [goCharsLt]
      | cons c cs =>
        simp only [goCharsLt] at h1 h2 ⊢
        by_cases hab : a.toNat < b.toNat
        · rw [if_pos hab] at h1
          exact absurd h1 (by simp)
        · rw [if_neg hab] at h1
          by_cases hbc : b.toNat < c.toNat
          · rw [if_pos hbc] at h2
            exact absurd h2 (by simp)
          · rw [if_neg hbc] at h2
            by_cases hba : b.toNat < a.toNat
            · rw [if_neg (show ¬ a.toNat < c.toNat by omega),
                if_pos (show c.toNat < a.toNat by omega)]
            · rw [if_neg hba] at h1
              by_cases hcb : c.toNat < b.toNat
              · rw [if_neg (show ¬ a.toNat < c.toNat by omega),
                  if_pos (show c.toNat < a.toNat by omega)]
              · rw [if_neg hcb] at h2
                rw [if_neg (show ¬ a.toNat < c.toNat by omega),
                  if_neg (show ¬ c.toNat < a.toNat by omega)]
                exact ih bs cs h1 h2

theorem goStringLt_asymm (s t : String) :
    goStringLt s t = true → goStringLt t s = false :=
  goCharsLt_asymm s.data t.data

theorem goStringLt_negtrans (s t u : String) :
    goStringLt s t = false → goStringLt t u = false → goStringLt s u = false :=
  goCharsLt_negtrans s.data t.data u.data

theorem revLess_eq_parsed {a b : Revision} {ga gb : Int}
    (ha : parseGen a = some ga) (hb : parseGen b = some gb) :
    revisionListSortFunc a b =
      (if ga ≠ gb then decide (ga < gb)
       else goStringLt b.metadata.name a.metadata.name) := by
  unfold revisionListSortFunc
  rw [ha, hb]

theorem revLess_eq_noneL {a : Revision} (b : Revision) (ha : parseGen a = none) :
    revisionListSortFunc a b = goStringLt b.metadata.name a.metadata.name := by
  unfold revisionListSortFunc
  rw [ha]

theorem asym_parsed (l : List Revision)
    (HA : ∀ r ∈ l, (parseGen r).isSome = true) :
    ∀ a ∈ l, ∀ b ∈ l, revisionListSortFunc a b = true →
      revisionListSortFunc b a = false := by
  intro a ha b hb h
  obtain ⟨ga, hga⟩ := Option.isSome_iff_exists.1 (HA a ha)
  obtain ⟨gb, hgb⟩ := Option.isSome_iff_exists.1 (HA b hb)
  rw [revLess_eq_parsed hga hgb] at h
  rw [revLess_eq_parsed hgb hga]
  by_cases hab : ga = gb
  · subst hab
    rw [if_neg (show ¬ ga ≠ ga from fun hc => hc rfl)] at h ⊢
    exact goStringLt_asymm _ _ h
  · rw [if_pos hab] at h
    rw [if_pos (Ne.symm hab)]
    simp only [decide_eq_true_eq] at h
    simp only [decide_eq_false_iff_not]
    omega

theorem negtrans_parsed (l : List Revision)
    (HA : ∀ r ∈ l, (parseGen r).isSome = true) :
    ∀ a ∈ l, ∀ b ∈ l, ∀ c ∈ l,
      revisionListSortFunc a b = false → revisionListSortFunc b c = false →
      revisionListSortFunc a c = false := by
  intro a ha b hb c hc h1 h2
  obtain ⟨ga, hga⟩ := Option.isSome_iff_exists.1 (HA a ha)
  obtain ⟨gb, hgb⟩ := Option.isSome_iff_exists.1 (HA b hb)
  obtain ⟨gc, hgc⟩ := Option.isSome_iff_exists.1 (HA c hc)
  rw [revLess_eq_parsed hga hgb] at h1
  rw [revLess_eq_parsed hgb hgc] at h2
  rw [revLess_eq_parsed hga hgc]
  by_cases hab : ga = gb <;> by_cases hbc : gb = gc
  · subst hab; subst hbc
    rw [if_neg (show ¬ ga ≠ ga from fun hc' => hc' rfl)] at h1 h2 ⊢
    exact goStringLt_negtrans _ _ _ h2 h1
  · subst hab
    rw [if_neg (show ¬ ga ≠ ga from fun hc' => hc' rfl)] at h1
    rw [if_pos hbc] at h2
    rw [if_pos hbc]
    simp only [decide_eq_false_iff_not] at h2 ⊢
    omega
  · subst hbc
    rw [if_pos hab] at h1
    rw [if_neg (show ¬ gb ≠ gb from fun hc' => hc' rfl)] at h2
    rw [if_pos hab]
    simp only [decide_eq_false_iff_not] at h1 ⊢
    omega
  · rw [if_pos hab] at h1
    rw [if_pos hbc] at h2
    simp only [decide_eq_false_iff_not] at h1 h2
    rw [if_pos (show ga ≠ gc by omega)]
    simp only [decide_eq_false_iff_not]
    omega

theorem asym_none (l : List Revision) (HB : ∀ r ∈ l, parseGen r = none) :
    ∀ a ∈ l, ∀ b ∈ l, revisionListSortFunc a b = true →
      revisionListSortFunc b a = false := by
  intro a ha b hb h
  rw [revLess_eq_noneL b (HB a ha)] at h
  rw [revLess_eq_noneL a (HB b hb)]
  exact goStringLt_asymm _ _ h

theorem negtrans_none (l : List Revision) (HB : ∀ r ∈ l, parseGen r = none) :
    ∀ a ∈ l, ∀ b ∈ l, ∀ c ∈ l,
      revisionListSortFunc a b = false → revisionListSortFunc b c = false →
      revisionListSortFunc a c = false := by
  intro a ha b hb c hc h1 h2
  rw [revLess_eq_noneL b (HB a ha)] at h1
  rw [revLess_eq_noneL c (HB b hb)] at h2
  rw [revLess_eq_noneL c (HB a ha)]
  exact goStringLt_negtrans _ _ _ h2 h1

/-- **C1-counterexample**: on this particular list — `"b"` with no generation
label, `"a"` with generation `1`, `"c"` with generation `2` — the spec's
pairwise requirements are cyclic (`b` before `a` by the name fallback, `a`
before `c` by generation, `c` before `b` by the name fallback), and the sorted
output (exactly Go's insertion-sort output `[b, a, c]`) violates the
name-descending requirement for the pair of `"b"` (no generation) and `"c"`
(generation 2), which appears in this order in the output. -/
theorem sortRevisions_mixed_generations_cex :
    (sortRevisions rlMixed).items = [revNoGen, revGen1, revGen2] ∧
    parseGen revNoGen = none ∧
    sortPairOk revNoGen revGen2 = false ∧
    ¬ (sortRevisions rlMixed).items.Pairwise
        (fun a b => sortPairOk a b = true) := by
  have h1 : (sortRevisions rlMixed).items = [revNoGen, revGen1, revGen2] := by
    decide
  have h3 : sortPairOk revNoGen revGen2 = false := by decide
  refine ⟨h1, by decide, h3, ?_⟩
  intro hp
  rw [h1] at hp
  have h4 := (List.pairwise_cons.1 hp).1 revGen2 (by simp)
  rw [h3] at h4
  exact Bool.false_ne_true h4

/-- **C1-amended**: provided every generation label in the list parses as an
integer, or none does, `sortRevisions` returns a permutation of its input that
is pairwise ordered by the dual-key rule (ascending parsed generation;
name-descending on equal generations; name-descending when generations are
unavailable) and stable (comparator-equivalent revisions keep their relative
input order). -/
theorem sortRevisions_dual_key_order (rl : RevisionList)
    (H : (∀ r ∈ rl.items, (parseGen r).isSome = true) ∨
         (∀ r ∈ rl.items, parseGen r = none)) :
    (sortRevisions rl).items.Perm rl.items ∧
    (sortRevisions rl).items.Pairwise (fun a b => sortPairOk a b = true) ∧
    (∀ c ∈ rl.items,
      (sortRevisions rl).items.filter (fun y => revEquiv c y) =
        rl.items.filter (fun y => revEquiv c y)) := by
  have hasym : ∀ a ∈ rl.items, ∀ b ∈ rl.items,
      revisionListSortFunc a b = true → revisionListSortFunc b a = false := by
    rcases H with HA | HB
    · exact asym_parsed rl.items HA
    · exact asym_none rl.items HB
  have hneg : ∀ a ∈ rl.items, ∀ b ∈ rl.items, ∀ c ∈ rl.items,
      revisionListSortFunc a b = false → revisionListSortFunc b c = false →
      revisionListSortFunc a c = false := by
    rcases H with HA | HB
    · exact negtrans_parsed rl.items HA
    · exact negtrans_none rl.items HB
  have hperm : (sortRevisions rl).items.Perm rl.items :=
    sortSliceStable_perm revisionListSortFunc rl.items
  refine ⟨hperm, ?_, ?_⟩
  · have hpw := sortSliceStable_pairwise revisionListSortFunc rl.items hasym hneg
    refine pairwise_imp_of_mem ?_ hpw
    intro a b hain hbin hr
    have ha : a ∈ rl.items := hperm.subset hain
    have hb : b ∈ rl.items := hperm.subset hbin
    rcases H with HA | HB
    · obtain ⟨ga, hga⟩ := Option.isSome_iff_exists.1 (HA a ha)
      obtain ⟨gb, hgb⟩ := Option.isSome_iff_exists.1 (HA b hb)
      rw [revLess_eq_parsed hgb hga] at hr
      unfold sortPairOk
      rw [hga, hgb]
      show (if ga = gb then !goStringLt a.metadata.name b.metadata.name
        else decide (ga < gb)) = true
      by_cases hab : ga = gb
      · subst hab
        rw [if_neg (show ¬ ga ≠ ga from fun hc => hc rfl)] at hr
        rw [if_pos rfl, hr]
        rfl
      · rw [if_pos (Ne.symm hab)] at hr
        rw [if_neg hab]
        simp only [decide_eq_false_iff_not] at hr
        simp only [decide_eq_true_eq]
        omega
    · rw [revLess_eq_noneL a (HB b hb)] at hr
      unfold sortPairOk
      rw [HB a ha, HB b hb]
      show (!goStringLt a.metadata.name b.metadata.name) = true
      rw [hr]
      rfl
  · intro c hcin
    refine sortSliceStable_filter revisionListSortFunc _ rl.items ?_
    intro x hx y hy hpx hpy
    simp only [revEquiv, Bool.and_eq_true, Bool.not_eq_true'] at hpx hpy
    exact hneg x hx c hcin y hy hpx.2 hpy.1

/-- **C1-witness**: on the two-revision history with generations `2` and `1`
(all labels parse), the sort is a permutation, pairwise dual-key ordered, and
stable. -/
theorem sortRevisions_dual_key_order_witness :
    (sortRevisions rlEx).items.Perm rlEx.items ∧
    (sortRevisions rlEx).items.Pairwise (fun a b => sortPairOk a b = true) ∧
    (∀ c ∈ rlEx.items,
      (sortRevisions rlEx).items.filter (fun y => revEquiv c y) =
        rlEx.items.filter (fun y => revEquiv c y)) :=
  sortRevisions_dual_key_order rlEx (Or.inl (by decide))

end KnExport
